import Mathlib

/-!
Verification of the numeric core of the ZULF_NMR_Suite repository
(`src/core/TwoD_simulation.py`) against its specification.

The Python module is shallowly embedded: each class method becomes a Lean
definition with the same name, numeric scalars entered by the caller
(gyromagnetic ratios, couplings, fields, time steps) are modelled as `ℚ`
(they are decimal literals in the source), and the matrix arithmetic is over
`ℂ`.  `np.kron` is embedded through its documented entry formula,
`scipy.linalg.expm` through `NormedSpace.exp ℂ`, and a Python `raise` through
`Except.error`.  `np.linalg.eigh` returns an implementation-defined
eigendecomposition, so functions calling it take the pair `(eigvals, eigvecs)`
as an extra argument; `eighSpec` states the contract that `eigh` guarantees
for that pair (unitary eigenvectors, spectral decomposition, sorted values).
-/

set_option maxHeartbeats 1600000

open Matrix

/-- The `d × d` complex matrices, the arrays manipulated by the simulator. -/
abbrev CMat (d : ℕ) : Type := Matrix (Fin d) (Fin d) ℂ

namespace Pauli_Operator

/-- Embeds `Pauli_Operator.P_x = [[0, 1/2], [1/2, 0]]`. -/
noncomputable def P_x : CMat 2 := !![0, 1/2; 1/2, 0]

/-- Embeds `Pauli_Operator.P_y = [[0, -1j/2], [1j/2, 0]]`. -/
noncomputable def P_y : CMat 2 := !![0, -Complex.I/2; Complex.I/2, 0]

/-- Embeds `Pauli_Operator.P_z = [[1/2, 0], [0, -1/2]]`. -/
noncomputable def P_z : CMat 2 := !![1/2, 0; 0, -1/2]

/-- Embeds `Pauli_Operator.unit = np.eye(2)`. -/
def unit : CMat 2 := 1

end Pauli_Operator

namespace Gamma_Dict

/-- Embeds `Gamma_Dict.G_13C = 10.71`. -/
def G_13C : ℚ := 10.71

/-- Embeds `Gamma_Dict.G_1H = 42.58`. -/
def G_1H : ℚ := 42.58

/-- Embeds `Gamma_Dict.G_15N = 60.86`. -/
def G_15N : ℚ := 60.86

end Gamma_Dict

/-- Embeds `np.kron` of two square matrices, by its documented entry formula:
`np.kron(A, B)[i, j] = A[i // k, j // k] * B[i % k, j % k]` where `k` is the
size of `B`. -/
def npKron {m k : ℕ} (A : CMat m) (B : CMat k) : CMat (m * k) :=
  Matrix.of fun i j => A i.divNat j.divNat * B i.modNat j.modNat

/-- Dimension-cast for square complex matrices (`2 ^ n * 2 = 2 ^ (n + 1)`). -/
def castMat {a b : ℕ} (h : a = b) (M : CMat a) : CMat b :=
  Matrix.reindex (finCongr h) (finCongr h) M

/-- Embeds `qutools.kron_all` applied to the family `f 0, …, f (n-1)` of `2 × 2`
matrices: the Python loop starts from `np.eye(1)` and repeatedly takes
`np.kron(result, mat)`, so the last factor occupies the least-significant
binary digits. -/
def kronAllFam : (n : ℕ) → (Fin n → CMat 2) → CMat (2 ^ n)
  | 0, _ => 1
  | n + 1, f =>
    castMat (pow_succ 2 n).symm
      (npKron (kronAllFam n fun j => f j.castSucc) (f (Fin.last n)))

namespace qutools

/-- Embeds `qutools.gamma_array`: looks every isotope label up in `Gamma_Dict`,
accumulating the ratios in order; an unlisted label raises
`ValueError(f"Unknown nucleus: {n}")`. -/
def gamma_array : List String → Except String (List ℚ)
  | [] => Except.ok []
  | s :: rest =>
    if s = "13C" then (gamma_array rest).map fun t => Gamma_Dict.G_13C :: t
    else if s = "1H" then (gamma_array rest).map fun t => Gamma_Dict.G_1H :: t
    else if s = "15N" then (gamma_array rest).map fun t => Gamma_Dict.G_15N :: t
    else Except.error ("Unknown nucleus: " ++ s)

/-- The isotope labels present in the fixed `Gamma_Dict` lookup table. -/
def knownNucleus (s : String) : Prop := s = "13C" ∨ s = "1H" ∨ s = "15N"

instance : DecidablePred knownNucleus := fun s => by
  unfold knownNucleus; infer_instance

/-- The table value for a known label (junk `0` outside the table). -/
def gammaVal (s : String) : ℚ :=
  if s = "13C" then Gamma_Dict.G_13C
  else if s = "1H" then Gamma_Dict.G_1H
  else if s = "15N" then Gamma_Dict.G_15N
  else 0

/-- Embeds `qutools.I_x n`, the `i`-th entry of the list built by
`kron_all(*(P_x if j == i else unit for j in range(n)))`. -/
noncomputable def I_x (n : ℕ) (i : Fin n) : CMat (2 ^ n) :=
  kronAllFam n fun j => if j = i then Pauli_Operator.P_x else Pauli_Operator.unit

/-- Embeds `qutools.I_y n`, with `P_y` in slot `i` and `unit` elsewhere. -/
noncomputable def I_y (n : ℕ) (i : Fin n) : CMat (2 ^ n) :=
  kronAllFam n fun j => if j = i then Pauli_Operator.P_y else Pauli_Operator.unit

/-- Embeds `qutools.I_z n`, with `P_z` in slot `i` and `unit` elsewhere. -/
noncomputable def I_z (n : ℕ) (i : Fin n) : CMat (2 ^ n) :=
  kronAllFam n fun j => if j = i then Pauli_Operator.P_z else Pauli_Operator.unit

end qutools

namespace calculation

/-- Embeds `calculation.H_zemmen`: `H = Σᵢ 2π·γᵢ·B·Iz_i` (B is
`environment.magnetic_field`). -/
noncomputable def H_zemmen (n : ℕ) (γ : Fin n → ℚ) (B : ℚ) : CMat (2 ^ n) :=
  ∑ i : Fin n, ((2 * Real.pi * (γ i : ℝ) * (B : ℝ) : ℝ) : ℂ) • qutools.I_z n i

/-- Embeds `calculation.H_coupling`: `H = Σᵢ Σ_{j>i} 2π·J[i][j]·(Ix_i·Ix_j + Iy_i·Iy_j
+ Iz_i·Iz_j)`, iterating `j` over `range(i+1, n)`. -/
noncomputable def H_coupling (n : ℕ) (J : Fin n → Fin n → ℚ) : CMat (2 ^ n) :=
  ∑ i : Fin n, ∑ j ∈ Finset.Ioi i, ((2 * Real.pi * (J i j : ℝ) : ℝ) : ℂ) •
    (qutools.I_x n i * qutools.I_x n j + qutools.I_y n i * qutools.I_y n j +
      qutools.I_z n i * qutools.I_z n j)

/-- Embeds `calculation.H_total = H_zemmen() + H_coupling()`. -/
noncomputable def H_total (n : ℕ) (γ : Fin n → ℚ) (B : ℚ) (J : Fin n → Fin n → ℚ) :
    CMat (2 ^ n) :=
  H_zemmen n γ B + H_coupling n J

/-- Embeds `calculation.propagate`: `P = expm(-1j * H_total * time_step)`. -/
noncomputable def propagate (n : ℕ) (γ : Fin n → ℚ) (B : ℚ) (J : Fin n → Fin n → ℚ)
    (time_step : ℚ) : CMat (2 ^ n) :=
  NormedSpace.exp ℂ ((-Complex.I * ((time_step : ℝ) : ℂ)) • H_total n γ B J)

/-- Embeds `calculation.pro_dagger`: the conjugate transpose of the propagator. -/
def pro_dagger {d : ℕ} (P : CMat d) : CMat d := Pᴴ

end calculation

/-- Reads entry `i` of the array `self.gamma = gamma_array(isos)` that
`calculation.__init__` stores. -/
def gammaFun (gs : List ℚ) (n : ℕ) : Fin n → ℚ := fun i => gs.getD i 0

namespace operation

/-- Embeds `operation.operator`: the detection observable `O = Σᵢ 2π·γᵢ·Ix_i`. -/
noncomputable def operator (n : ℕ) (γ : Fin n → ℚ) : CMat (2 ^ n) :=
  ∑ i : Fin n, ((2 * Real.pi * (γ i : ℝ) : ℝ) : ℂ) • qutools.I_x n i

/-- Embeds `operation.rho0`: the initial density matrix `ρ = Σᵢ 2π·γᵢ·Ix_i`. -/
noncomputable def rho0 (n : ℕ) (γ : Fin n → ℚ) : CMat (2 ^ n) :=
  ∑ i : Fin n, ((2 * Real.pi * (γ i : ℝ) : ℝ) : ℂ) • qutools.I_x n i

/-- The `H_glob_pulse` built inside `operation.p_pulse`: the detection
Hamiltonian plus the RF terms `Σₒ 2π·γₒ·(Bx·Ix_o + By·Iy_o + Bz·Iz_o)`. -/
noncomputable def H_glob_pulse (n : ℕ) (γ : Fin n → ℚ) (H : CMat (2 ^ n))
    (Bx By Bz : ℚ) : CMat (2 ^ n) :=
  H + ∑ o : Fin n, ((2 * Real.pi * (γ o : ℝ) : ℝ) : ℂ) •
    (((Bx : ℝ) : ℂ) • qutools.I_x n o + ((By : ℝ) : ℂ) • qutools.I_y n o +
      ((Bz : ℝ) : ℂ) • qutools.I_z n o)

/-- Embeds `operation.p_pulse`: `expm(-1j * H_glob_pulse * duration * 1e-6)`
(duration is in microseconds). -/
noncomputable def p_pulse (n : ℕ) (γ : Fin n → ℚ) (H : CMat (2 ^ n))
    (Bx By Bz duration : ℚ) : CMat (2 ^ n) :=
  NormedSpace.exp ℂ
    ((-Complex.I * (((duration : ℝ) * 1e-6 : ℝ) : ℂ)) • H_glob_pulse n γ H Bx By Bz)

/-- Embeds `operation.rho_pulse`: `rho = p_pulse() @ rho0() @ p_pulse().conj().T`. -/
noncomputable def rho_pulse (n : ℕ) (γ : Fin n → ℚ) (H : CMat (2 ^ n))
    (Bx By Bz duration : ℚ) : CMat (2 ^ n) :=
  p_pulse n γ H Bx By Bz duration * rho0 n γ * (p_pulse n γ H Bx By Bz duration)ᴴ

end operation

namespace parameters

/-- Embeds `parameters.__post_init__`, which computes `time_step = 1 / sampling_rate`;
Python raises `ZeroDivisionError` when the rate is zero and accepts any other
value (including negative rates) silently. -/
def time_step_of (sampling_rate : ℚ) : Except String ℚ :=
  if sampling_rate = 0 then Except.error "ZeroDivisionError: division by zero"
  else Except.ok (1 / sampling_rate)

end parameters

namespace simulation

/-- The detection loop shared by `simulation.fid` and the inner loop of
`simulation.fid2d`: `fidAux Δt t2star O P Pd rem k ρ` produces the samples
`k, k+1, …, k+rem-1`, each `trace(ρ·O)·exp(-(k·Δt)/t2star)` followed by the
update `ρ ← P·ρ·Pd`.  The division by `t2star` raises `ZeroDivisionError`
when `t2star = 0` (and the loop body runs). -/
noncomputable def fidAux {d : ℕ} (Δt t2star : ℚ) (O P Pd : CMat d) :
    ℕ → ℕ → CMat d → Except String (List ℂ)
  | 0, _, _ => Except.ok []
  | rem + 1, k, ρ =>
    if t2star = 0 then Except.error "ZeroDivisionError: float division by zero"
    else
      (fidAux Δt t2star O P Pd rem (k + 1) (P * ρ * Pd)).map fun rest =>
        (Matrix.trace (ρ * O) *
          ((Real.exp (-((k : ℝ) * (Δt : ℝ)) / (t2star : ℝ)) : ℝ) : ℂ)) :: rest

/-- Embeds `simulation.fid`: the pulse-prepared density matrix, the detection
observable and the cached free-evolution propagator, then `npoints` steps of
the detection loop. -/
noncomputable def fid (n : ℕ) (γ : Fin n → ℚ) (B : ℚ) (J : Fin n → Fin n → ℚ)
    (Bx By Bz duration : ℚ) (npoints : ℕ) (time_step t2star : ℚ) :
    Except String (List ℂ) :=
  let H := calculation.H_total n γ B J
  let P := calculation.propagate n γ B J time_step
  fidAux time_step t2star (operation.operator n γ) P (calculation.pro_dagger P)
    npoints 0 (operation.rho_pulse n γ H Bx By Bz duration)

/-- Embeds `t1_evo_1 = -1j * H * t1_step` of `simulation.fid2d` and
`simulation.freq_domain2d` (`t1_step` already converted to seconds, as stored
by `simulation.__init__`). -/
noncomputable def t1_evo_1 {d : ℕ} (H : CMat d) (t1_step : ℚ) : CMat d :=
  (-Complex.I * ((t1_step : ℝ) : ℂ)) • H

/-- The cumulative indirect-dimension operator of `simulation.fid2d`: it
starts from the identity and is updated by
`t1_evo = t1_step_evo @ t1_evo` with the single precomputed step
`t1_step_evo = expm(t1_evo_1)`; this is its value entering iteration `i`. -/
noncomputable def fid2d_t1_evo {d : ℕ} (H : CMat d) (t1_step : ℚ) : ℕ → CMat d
  | 0 => 1
  | i + 1 => NormedSpace.exp ℂ (t1_evo_1 H t1_step) * fid2d_t1_evo H t1_step i

/-- The indirect-dimension operator that `simulation.freq_domain2d` computes
afresh at increment `k`: `t1_evo = expm(t1_evo_1 * k)`. -/
noncomputable def freq_domain2d_t1_evo {d : ℕ} (H : CMat d) (t1_step : ℚ)
    (k : ℕ) : CMat d :=
  NormedSpace.exp ℂ ((k : ℂ) • t1_evo_1 H t1_step)

/-- Outer loop of `simulation.fid2d`: row `i` evolves the pulse-prepared state
by the cumulative operator, applies the pulse propagator and runs the 1D
detection loop. -/
noncomputable def fid2dAux {d : ℕ} (Δt t2star : ℚ) (ρ pulseM O P Pd H : CMat d)
    (t1_step : ℚ) (npoints : ℕ) : ℕ → ℕ → Except String (List (List ℂ))
  | 0, _ => Except.ok []
  | rem + 1, i =>
    (fidAux Δt t2star O P Pd npoints 0
        (pulseM * (fid2d_t1_evo H t1_step i * ρ * (fid2d_t1_evo H t1_step i)ᴴ) *
          pulseMᴴ)).bind
      fun row =>
        (fid2dAux Δt t2star ρ pulseM O P Pd H t1_step npoints rem (i + 1)).map
          fun g => row :: g

/-- Embeds `simulation.fid2d` (environments 1 and 2 carry the fields `B1`, `B2`):
`H`, the pulse-prepared state and the pulse propagator from environment 1,
the free-evolution propagator from environment 2, then `Np1` rows of
`npoints` samples. -/
noncomputable def fid2d (n : ℕ) (γ : Fin n → ℚ) (B1 B2 : ℚ)
    (J : Fin n → Fin n → ℚ) (Bx By Bz duration : ℚ) (Np1 npoints : ℕ)
    (time_step t1_step t2star : ℚ) : Except String (List (List ℂ)) :=
  let H := calculation.H_total n γ B1 J
  let P := calculation.propagate n γ B2 J time_step
  fid2dAux time_step t2star (operation.rho_pulse n γ H Bx By Bz duration)
    (operation.p_pulse n γ H Bx By Bz duration) (operation.operator n γ) P
    (calculation.pro_dagger P) H t1_step npoints Np1 0

end simulation

/-- The contract `np.linalg.eigh(H)` guarantees for its output
`(eigvals, eigvecs)` on a Hermitian input: unitary eigenvector columns, the
spectral decomposition `H = V·diag(E)·Vᴴ`, and eigenvalues in ascending
order. -/
def eighSpec (d : ℕ) (H : CMat d) (E : Fin d → ℝ) (V : CMat d) : Prop :=
  Vᴴ * V = 1 ∧ H = V * Matrix.diagonal (fun i => ((E i : ℝ) : ℂ)) * Vᴴ ∧
    Monotone E

namespace simulation

/-- The index pairs `(i, j)` with `i < j` in the row-major order produced by
the nested loops and extracted by `np.triu_indices_from(f, k=1)`. -/
def upperPairs (d : ℕ) : List (Fin d × Fin d) :=
  (List.finRange d).flatMap fun i =>
    ((List.finRange d).filter fun j => i < j).map fun j => (i, j)

/-- Embeds `simulation.freq_domain` (run on the `eigh` output `E`, `V`): transforms
the pulse-prepared state and the observable into the eigenbasis and returns
the flattened strictly-upper-triangular frequency and weight arrays.  The
tolerance mask in the source is commented out, so nothing is filtered. -/
noncomputable def freq_domain (d : ℕ) (E : Fin d → ℝ) (V ρ O : CMat d) :
    List ℝ × List ℂ :=
  let rho_eig := Vᴴ * ρ * V
  let O_eig := Vᴴ * O * V
  ((upperPairs d).map fun p => |E p.2 - E p.1| / (2 * Real.pi),
   (upperPairs d).map fun p => rho_eig p.1 p.2 * O_eig p.2 p.1)

/-- The Python generator pattern shared by `freq_domain_2d` and
`freq_domain_2d_MQ`: iterate the loop items in order, `continue` past items
failing the guard, `yield e x` for the rest, and `return` once the count of
yields reaches `max_count`. -/
def yieldLoopGo {α β : Type*} (g : α → Prop) [DecidablePred g] (e : α → β)
    (maxc : ℕ) : List α → ℕ → List β
  | [], _ => []
  | x :: rest, c =>
    if g x then
      e x :: (if maxc ≤ c + 1 then [] else yieldLoopGo g e maxc rest (c + 1))
    else yieldLoopGo g e maxc rest c

/-- Runs `yieldLoopGo` with initial yield count `0`. -/
def yieldLoop {α β : Type*} (g : α → Prop) [DecidablePred g] (e : α → β)
    (maxc : ℕ) (items : List α) : List β :=
  yieldLoopGo g e maxc items 0

/-- The four nested eigenstate loops of the 2D generators, in iteration
order. -/
def quadruples (d : ℕ) : List (Fin d × Fin d × Fin d × Fin d) :=
  (List.finRange d).flatMap fun m => (List.finRange d).flatMap fun n =>
    (List.finRange d).flatMap fun a => (List.finRange d).map fun b => (m, n, a, b)

open Classical in
/-- Embeds `simulation.freq_domain_2d` (run on the `eigh` output `E`, `V`): loops
over `(m, n)` (the F2 pair) and `(a, b)` (the F1 pair), skipping equal pairs
and — only when `tol_hz > 0` — frequencies `≤ tol_hz`, and yields
`(f1, f2, w)` whenever `|w| > min_weight`, stopping at `max_count` yields. -/
noncomputable def freq_domain_2d (d : ℕ) (E : Fin d → ℝ)
    (V pulseM coilM rho0M : CMat d) (tol_hz min_weight : ℝ) (max_count : ℕ) :
    List (ℝ × ℝ × ℂ) :=
  let Up := Vᴴ * pulseM * V
  let Oe := Vᴴ * coilM * V
  let r0 := Vᴴ * rho0M * V
  let rho1 := Up * r0 * Upᴴ
  yieldLoop
    (fun q => q.1 ≠ q.2.1 ∧
      ¬(0 < tol_hz ∧ |E q.1 - E q.2.1| / (2 * Real.pi) ≤ tol_hz) ∧
      q.2.2.1 ≠ q.2.2.2 ∧
      ¬(0 < tol_hz ∧ |E q.2.2.1 - E q.2.2.2| / (2 * Real.pi) ≤ tol_hz) ∧
      min_weight < Complex.abs (rho1 q.2.2.1 q.2.2.2 * Up q.1 q.2.2.1 *
        star (Up q.2.1 q.2.2.2) * Oe q.2.1 q.1))
    (fun q => (|E q.2.2.1 - E q.2.2.2| / (2 * Real.pi),
      |E q.1 - E q.2.1| / (2 * Real.pi),
      rho1 q.2.2.1 q.2.2.2 * Up q.1 q.2.2.1 * star (Up q.2.1 q.2.2.2) *
        Oe q.2.1 q.1))
    max_count (quadruples d)

open Classical in
/-- Embeds `simulation.freq_domain_2d_MQ` (run on the `eigh` output `E`, `V`): the
MQ excitation `U_exc = pulse·expm(-i·H·t1_step)·pulse` is applied to the
initial state; the outer loop over `(a, b)` (F1) also skips coherences with
`|rho_e[a,b]| ≤ min_weight`, the inner loop over `(m, n)` (F2) yields
`(f1, f2, w)` for `|w| > min_weight`, stopping at `max_count` yields.  Here
the quadruple is read as `(a, b, m, n)`. -/
noncomputable def freq_domain_2d_MQ (d : ℕ) (E : Fin d → ℝ)
    (V pulseM coilM rho0M H : CMat d) (t1_step : ℚ) (tol_hz min_weight : ℝ)
    (max_count : ℕ) : List (ℝ × ℝ × ℂ) :=
  let Uexc := pulseM * NormedSpace.exp ℂ (t1_evo_1 H t1_step) * pulseM
  let rho_e := Vᴴ * (Uexc * rho0M * Uexcᴴ) * V
  let Ure_e := Vᴴ * pulseM * V
  let Mdet_e := Vᴴ * coilM * V
  yieldLoop
    (fun q => q.1 ≠ q.2.1 ∧
      ¬(0 < tol_hz ∧ |E q.1 - E q.2.1| / (2 * Real.pi) ≤ tol_hz) ∧
      ¬(Complex.abs (rho_e q.1 q.2.1) ≤ min_weight) ∧
      q.2.2.1 ≠ q.2.2.2 ∧
      ¬(0 < tol_hz ∧ |E q.2.2.1 - E q.2.2.2| / (2 * Real.pi) ≤ tol_hz) ∧
      min_weight < Complex.abs (rho_e q.1 q.2.1 * Ure_e q.2.2.1 q.1 *
        star (Ure_e q.2.2.2 q.2.1) * Mdet_e q.2.2.2 q.2.2.1))
    (fun q => (|E q.1 - E q.2.1| / (2 * Real.pi),
      |E q.2.2.1 - E q.2.2.2| / (2 * Real.pi),
      rho_e q.1 q.2.1 * Ure_e q.2.2.1 q.1 * star (Ure_e q.2.2.2 q.2.1) *
        Mdet_e q.2.2.2 q.2.2.1))
    max_count (quadruples d)

end simulation

namespace SignalProcessor

/-- Embeds `np.linspace(0, 1, n)`: `n` evenly spaced samples with both endpoints
included, i.e. `k / (n - 1)`.  (For `n = 1` numpy returns `[0.]`, and
`0 / 0 = 0` in Lean gives the same list; for `n = 0` both are empty.) -/
noncomputable def linspace01 (n : ℕ) : List ℝ :=
  (List.range n).map fun k : ℕ => (k : ℝ) / ((n : ℝ) - 1)

/-- The decay window `np.exp(-decay * np.linspace(0, 1, n))` of
`SignalProcessor.apodisation`. -/
noncomputable def apodisation_window (n : ℕ) (decay : ℝ) : List ℝ :=
  (linspace01 n).map fun t => Real.exp (-decay * t)

/-- Embeds `SignalProcessor.apodisation`: `fid_win = fid * window`, then
`fid_win[0] *= 0.5`.  On an empty array the indexed assignment raises
`IndexError`. -/
noncomputable def apodisation (fid : List ℂ) (decay : ℝ) :
    Except String (List ℂ) :=
  match List.zipWith (fun x (w : ℝ) => x * (w : ℂ)) fid
      (apodisation_window fid.length decay) with
  | [] => Except.error "IndexError: index 0 is out of bounds for axis 0 with size 0"
  | x :: rest => Except.ok (x * (0.5 : ℂ) :: rest)

/-- Embeds `SignalProcessor.apodisation2d`: multiplies by the outer product
`np.outer(window_t1, window_t2)` of the two 1D windows (`n_t1, n_t2 =
fid2d.shape`, so the rows are assumed rectangular), then halves the `[0, 0]`
sample; an empty axis makes that indexed assignment raise `IndexError`. -/
noncomputable def apodisation2d (fid2d : List (List ℂ)) (decay1 decay2 : ℝ) :
    Except String (List (List ℂ)) :=
  match List.zipWith
      (fun (wi : ℝ) row => List.zipWith (fun x (wj : ℝ) => x * ((wi * wj : ℝ) : ℂ))
        row (apodisation_window (fid2d.headD []).length decay2))
      (apodisation_window fid2d.length decay1) fid2d with
  | [] => Except.error "IndexError: index 0 is out of bounds for axis 0 with size 0"
  | [] :: _ => Except.error "IndexError: index 0 is out of bounds for axis 1 with size 0"
  | (x :: rtail) :: rest => Except.ok ((x * (0.5 : ℂ) :: rtail) :: rest)

/-- Embeds `np.fft.fft(x, n)`: zero-pads or truncates `x` to length `n` and returns
the DFT `X[k] = Σ_{j<n} x_j · exp(-2πi·j·k/n)`. -/
noncomputable def npfft (x : List ℂ) (n : ℕ) : List ℂ :=
  (List.range n).map fun k : ℕ =>
    ∑ j ∈ Finset.range n, x.getD j 0 *
      Complex.exp (-(2 * (Real.pi : ℂ) * Complex.I * (j : ℂ) * (k : ℂ)) / (n : ℂ))

/-- Embeds `np.fft.fftshift`: swaps the two halves of the array, moving the
zero-frequency entry to the centre (a left rotation by `⌈N/2⌉`). -/
def fftshiftList {α : Type*} (x : List α) : List α :=
  x.drop ((x.length + 1) / 2) ++ x.take ((x.length + 1) / 2)

/-- Embeds `SignalProcessor.fft`: `fftshift(fft(fid, n=zerofill)) / zerofill`, with
`zerofill = None` defaulting to `len(fid)`; numpy rejects a zero transform
size. -/
noncomputable def fft (fid : List ℂ) (zerofill : Option ℕ) :
    Except String (List ℂ) :=
  let n := zerofill.getD fid.length
  if n = 0 then Except.error "ValueError: Invalid number of FFT data points"
  else Except.ok ((fftshiftList (npfft fid n)).map fun z => z / (n : ℂ))

/-- Embeds `np.fft.fftfreq(N, d)`: `[0, 1, …, ⌈N/2⌉-1, -⌊N/2⌋, …, -1] / (d·N)`. -/
def npfftfreq (N : ℕ) (dt : ℚ) : List ℚ :=
  (List.range N).map fun i =>
    if i ≤ (N - 1) / 2 then (i : ℚ) / (dt * N) else ((i : ℚ) - N) / (dt * N)

/-- Embeds `SignalProcessor.freq`: `np.fft.fftshift(np.fft.fftfreq(spectrum.size,
d=dt))`, returned as is — no offset is added. -/
def freq (spectrum : List ℂ) (dt : ℚ) : List ℚ :=
  fftshiftList (npfftfreq spectrum.length dt)

/-- Modelled from the spec's words (C8): the claimed frequency axis
`linspace(−sweep/2, sweep/2 − sweep/N, N) + offset` with `sweep = 1/dt`. -/
def specFreqAxis (N : ℕ) (dt offset : ℚ) : List ℚ :=
  (List.range N).map fun i : ℕ =>
    (-(1 / dt) / 2 + (i : ℚ) * (1 / dt) / (N : ℚ)) + offset

end SignalProcessor

theorem npKron_conjTranspose {m k : ℕ} (A : CMat m) (B : CMat k) :
    (npKron A B)ᴴ = npKron Aᴴ Bᴴ := by
  ext i j
  simp [npKron, Matrix.conjTranspose_apply, star_mul']

theorem divNat_finProdFinEquiv {m k : ℕ} (p : Fin m × Fin k) :
    (finProdFinEquiv p).divNat = p.1 :=
  congrArg Prod.fst (finProdFinEquiv.symm_apply_apply p)

theorem modNat_finProdFinEquiv {m k : ℕ} (p : Fin m × Fin k) :
    (finProdFinEquiv p).modNat = p.2 :=
  congrArg Prod.snd (finProdFinEquiv.symm_apply_apply p)

theorem npKron_mul {m k : ℕ} (A C : CMat m) (B D : CMat k) :
    npKron A B * npKron C D = npKron (A * C) (B * D) := by
  ext i j
  rw [Matrix.mul_apply,
    ← Equiv.sum_comp (finProdFinEquiv : Fin m × Fin k ≃ Fin (m * k))]
  simp only [npKron, Matrix.of_apply, divNat_finProdFinEquiv, modNat_finProdFinEquiv,
    Matrix.mul_apply]
  rw [Fintype.sum_prod_type, Finset.sum_mul_sum]
  refine Finset.sum_congr rfl fun a _ => Finset.sum_congr rfl fun b _ => ?_
  ring

open Kronecker in
/-- Sanity anchor: `npKron` is Mathlib's Kronecker product transported along
the row-major index flattening. -/
theorem npKron_eq_kroneckerMap {m k : ℕ} (A : CMat m) (B : CMat k) :
    npKron A B = Matrix.reindex finProdFinEquiv finProdFinEquiv (A ⊗ₖ B) := by
  ext i j
  rfl

theorem castMat_conjTranspose {a b : ℕ} (h : a = b) (M : CMat a) :
    (castMat h M)ᴴ = castMat h Mᴴ :=
  Matrix.conjTranspose_reindex _ _ _

theorem castMat_mul {a b : ℕ} (h : a = b) (M N : CMat a) :
    castMat h M * castMat h N = castMat h (M * N) := by
  subst h
  simp [castMat]

theorem kronAllFam_conjTranspose (n : ℕ) (f : Fin n → CMat 2) :
    (kronAllFam n f)ᴴ = kronAllFam n fun j => (f j)ᴴ := by
  induction n with
  | zero => simp [kronAllFam]
  | succ n ih => simp [kronAllFam, castMat_conjTranspose, npKron_conjTranspose, ih]

theorem kronAllFam_mul (n : ℕ) (f g : Fin n → CMat 2) :
    kronAllFam n f * kronAllFam n g = kronAllFam n fun j => f j * g j := by
  induction n with
  | zero => simp [kronAllFam]
  | succ n ih => simp [kronAllFam, castMat_mul, npKron_mul, ih]

theorem P_x_conjTranspose : Pauli_Operator.P_xᴴ = Pauli_Operator.P_x := by
  ext i j
  fin_cases i <;> fin_cases j <;>
    simp [Pauli_Operator.P_x, Matrix.conjTranspose_apply, Complex.ext_iff]

theorem P_y_conjTranspose : Pauli_Operator.P_yᴴ = Pauli_Operator.P_y := by
  ext i j
  fin_cases i <;> fin_cases j <;>
    simp [Pauli_Operator.P_y, Matrix.conjTranspose_apply, Complex.ext_iff]

theorem P_z_conjTranspose : Pauli_Operator.P_zᴴ = Pauli_Operator.P_z := by
  ext i j
  fin_cases i <;> fin_cases j <;>
    simp [Pauli_Operator.P_z, Matrix.conjTranspose_apply, Complex.ext_iff]

theorem unit_conjTranspose : Pauli_Operator.unitᴴ = Pauli_Operator.unit := by
  simp [Pauli_Operator.unit]

theorem I_x_conjTranspose (n : ℕ) (i : Fin n) : (qutools.I_x n i)ᴴ = qutools.I_x n i := by
  unfold qutools.I_x
  rw [kronAllFam_conjTranspose]
  refine congrArg (kronAllFam n) (funext fun j => ?_)
  by_cases h : j = i <;> simp [h, P_x_conjTranspose, unit_conjTranspose]

theorem I_y_conjTranspose (n : ℕ) (i : Fin n) : (qutools.I_y n i)ᴴ = qutools.I_y n i := by
  unfold qutools.I_y
  rw [kronAllFam_conjTranspose]
  refine congrArg (kronAllFam n) (funext fun j => ?_)
  by_cases h : j = i <;> simp [h, P_y_conjTranspose, unit_conjTranspose]

theorem I_z_conjTranspose (n : ℕ) (i : Fin n) : (qutools.I_z n i)ᴴ = qutools.I_z n i := by
  unfold qutools.I_z
  rw [kronAllFam_conjTranspose]
  refine congrArg (kronAllFam n) (funext fun j => ?_)
  by_cases h : j = i <;> simp [h, P_z_conjTranspose, unit_conjTranspose]

/-- Spin operators acting on different spins commute (each pointwise factor
pair has a `unit = 1` on at least one side). -/
theorem spinOps_comm (n : ℕ) {i i' : Fin n} (h : i ≠ i') (P Q : CMat 2) :
    (kronAllFam n fun j => if j = i then P else Pauli_Operator.unit) *
        (kronAllFam n fun j => if j = i' then Q else Pauli_Operator.unit) =
      (kronAllFam n fun j => if j = i' then Q else Pauli_Operator.unit) *
        (kronAllFam n fun j => if j = i then P else Pauli_Operator.unit) := by
  rw [kronAllFam_mul, kronAllFam_mul]
  refine congrArg (kronAllFam n) (funext fun j => ?_)
  by_cases hi : j = i
  · have hi' : j ≠ i' := by subst hi; exact h
    simp [hi, hi', Pauli_Operator.unit, h]
  · by_cases hi' : j = i' <;> simp [hi, hi', Pauli_Operator.unit, h, Ne.symm h]

theorem smul_real_conjTranspose {d : ℕ} (r : ℝ) {M : CMat d} (hM : Mᴴ = M) :
    (((r : ℂ)) • M)ᴴ = (r : ℂ) • M := by
  rw [Matrix.conjTranspose_smul, hM, Complex.star_def, Complex.conj_ofReal]

theorem H_zemmen_conjTranspose (n : ℕ) (γ : Fin n → ℚ) (B : ℚ) :
    (calculation.H_zemmen n γ B)ᴴ = calculation.H_zemmen n γ B := by
  unfold calculation.H_zemmen
  rw [Matrix.conjTranspose_sum]
  exact Finset.sum_congr rfl fun i _ => smul_real_conjTranspose _ (I_z_conjTranspose n i)

theorem I_x_comm (n : ℕ) {i j : Fin n} (h : i ≠ j) :
    qutools.I_x n j * qutools.I_x n i = qutools.I_x n i * qutools.I_x n j := by
  unfold qutools.I_x
  exact spinOps_comm n (Ne.symm h) _ _

theorem I_y_comm (n : ℕ) {i j : Fin n} (h : i ≠ j) :
    qutools.I_y n j * qutools.I_y n i = qutools.I_y n i * qutools.I_y n j := by
  unfold qutools.I_y
  exact spinOps_comm n (Ne.symm h) _ _

theorem I_z_comm (n : ℕ) {i j : Fin n} (h : i ≠ j) :
    qutools.I_z n j * qutools.I_z n i = qutools.I_z n i * qutools.I_z n j := by
  unfold qutools.I_z
  exact spinOps_comm n (Ne.symm h) _ _

theorem coupling_term_conjTranspose (n : ℕ) {i j : Fin n} (h : i ≠ j) :
    (qutools.I_x n i * qutools.I_x n j + qutools.I_y n i * qutools.I_y n j +
        qutools.I_z n i * qutools.I_z n j)ᴴ =
      qutools.I_x n i * qutools.I_x n j + qutools.I_y n i * qutools.I_y n j +
        qutools.I_z n i * qutools.I_z n j := by
  simp only [Matrix.conjTranspose_add, Matrix.conjTranspose_mul,
    I_x_conjTranspose, I_y_conjTranspose, I_z_conjTranspose]
  rw [I_x_comm n h, I_y_comm n h, I_z_comm n h]

theorem H_coupling_conjTranspose (n : ℕ) (J : Fin n → Fin n → ℚ) :
    (calculation.H_coupling n J)ᴴ = calculation.H_coupling n J := by
  unfold calculation.H_coupling
  rw [Matrix.conjTranspose_sum]
  refine Finset.sum_congr rfl fun i _ => ?_
  rw [Matrix.conjTranspose_sum]
  refine Finset.sum_congr rfl fun j hj => ?_
  exact smul_real_conjTranspose _
    (coupling_term_conjTranspose n (Finset.mem_Ioi.mp hj).ne)

/-- Claim C1: For every valid spin system (all isotopes found by
`gamma_array`), every real symmetric coupling matrix and every field value,
`calculation.H_total = H_zemmen + H_coupling` equals its own conjugate
transpose. -/
theorem H_total_hermitian (isos : List String) (gs : List ℚ)
    (hγ : qutools.gamma_array isos = Except.ok gs) (B : ℚ)
    (J : Fin isos.length → Fin isos.length → ℚ) (hJ : ∀ i j, J i j = J j i) :
    (calculation.H_total isos.length (gammaFun gs isos.length) B J)ᴴ =
      calculation.H_total isos.length (gammaFun gs isos.length) B J := by
  unfold calculation.H_total
  rw [Matrix.conjTranspose_add, H_zemmen_conjTranspose, H_coupling_conjTranspose]

/-- Witness for C1: the two-proton system with a symmetric coupling matrix. -/
theorem H_total_hermitian_witness :
    (calculation.H_total (["1H", "1H"]).length
        (gammaFun [Gamma_Dict.G_1H, Gamma_Dict.G_1H] (["1H", "1H"]).length) 0
        fun _ _ => 10)ᴴ =
      calculation.H_total (["1H", "1H"]).length
        (gammaFun [Gamma_Dict.G_1H, Gamma_Dict.G_1H] (["1H", "1H"]).length) 0
        fun _ _ => 10 :=
  H_total_hermitian ["1H", "1H"] [Gamma_Dict.G_1H, Gamma_Dict.G_1H] rfl 0
    (fun _ _ => 10) fun _ _ => rfl

/-- Claim C6: `calculation.H_coupling` reads only the strictly upper-triangular
entries of the coupling matrix: two couplings agreeing there give the same
Hamiltonian. -/
theorem H_coupling_upper_triangle_only (n : ℕ) (J1 J2 : Fin n → Fin n → ℚ)
    (h : ∀ i j : Fin n, i < j → J1 i j = J2 i j) :
    calculation.H_coupling n J1 = calculation.H_coupling n J2 := by
  unfold calculation.H_coupling
  refine Finset.sum_congr rfl fun i _ => Finset.sum_congr rfl fun j hj => ?_
  rw [h i j (Finset.mem_Ioi.mp hj)]

/-- Witness for C6: couplings differing on the diagonal and below it. -/
theorem H_coupling_upper_triangle_only_witness :
    calculation.H_coupling 2 (fun i j => if i < j then 3 else 5) =
      calculation.H_coupling 2 fun i j => if i < j then 3 else 7 :=
  H_coupling_upper_triangle_only 2 _ _ (by decide)

/-- Claim C7: `qutools.gamma_array` returns the array of corresponding
gyromagnetic ratios when every isotope is in the lookup table, and raises the
"Unknown nucleus" `ValueError` as soon as one is not. -/
theorem gamma_array_lookup (ns : List String) :
    ((∀ s ∈ ns, qutools.knownNucleus s) →
        qutools.gamma_array ns = Except.ok (ns.map qutools.gammaVal)) ∧
      ((∃ s ∈ ns, ¬ qutools.knownNucleus s) →
        ∃ s ∈ ns, ¬ qutools.knownNucleus s ∧
          qutools.gamma_array ns = Except.error ("Unknown nucleus: " ++ s)) := by
  induction ns with
  | nil =>
    refine ⟨fun _ => rfl, ?_⟩
    rintro ⟨s, hs, -⟩
    exact absurd hs (List.not_mem_nil s)
  | cons a rest ih =>
    constructor
    · intro hall
      have ha := hall a (List.mem_cons_self a rest)
      have hrest := ih.1 fun s hs => hall s (List.mem_cons_of_mem a hs)
      rcases ha with h | h | h <;>
        simp [qutools.gamma_array, qutools.gammaVal, h, hrest, Except.map]
    · rintro ⟨s, hs, hunk⟩
      by_cases hka : qutools.knownNucleus a
      · have hsrest : s ∈ rest := by
          rcases List.mem_cons.mp hs with rfl | h
          · exact absurd hka hunk
          · exact h
        obtain ⟨t, ht, htu, heq⟩ := ih.2 ⟨s, hsrest, hunk⟩
        refine ⟨t, List.mem_cons_of_mem a ht, htu, ?_⟩
        rcases hka with h | h | h <;>
          simp [qutools.gamma_array, h, heq, Except.map]
      · have h1 : a ≠ "13C" := fun h => hka (Or.inl h)
        have h2 : a ≠ "1H" := fun h => hka (Or.inr (Or.inl h))
        have h3 : a ≠ "15N" := fun h => hka (Or.inr (Or.inr h))
        exact ⟨a, List.mem_cons_self a rest, hka, by
          simp [qutools.gamma_array, h1, h2, h3]⟩

/-- Witness for C7: a fully known list maps to its table values, and a list
containing the unlisted label "2H" raises. -/
theorem gamma_array_lookup_witness :
    qutools.gamma_array ["1H", "13C"] =
        Except.ok ((["1H", "13C"]).map qutools.gammaVal) ∧
      ∃ s ∈ ["1H", "2H"], ¬ qutools.knownNucleus s ∧
        qutools.gamma_array ["1H", "2H"] = Except.error ("Unknown nucleus: " ++ s) :=
  ⟨(gamma_array_lookup ["1H", "13C"]).1 (by decide),
   (gamma_array_lookup ["1H", "2H"]).2 ⟨"2H", by decide, by decide⟩⟩

/-- Claim C10: `operation.rho0` and `operation.operator` build the same matrix
`Σᵢ 2π·γᵢ·Ix_i`: the initial density matrix equals the detection observable. -/
theorem rho0_eq_operator (n : ℕ) (γ : Fin n → ℚ) :
    operation.rho0 n γ = operation.operator n γ := rfl

namespace simulation

theorem fidAux_ok {d : ℕ} (Δt t2star : ℚ) (O P Pd : CMat d) (h : t2star ≠ 0) :
    ∀ (rem k : ℕ) (ρ : CMat d), ∃ l,
      fidAux Δt t2star O P Pd rem k ρ = Except.ok l ∧ l.length = rem := by
  intro rem
  induction rem with
  | zero => exact fun k ρ => ⟨[], rfl, rfl⟩
  | succ rem ih =>
    intro k ρ
    obtain ⟨l, hl, hlen⟩ := ih (k + 1) (P * ρ * Pd)
    exact ⟨_, by rw [fidAux, if_neg h, hl]; rfl, by simpa using hlen⟩

theorem fid2dAux_ok {d : ℕ} (Δt t2star : ℚ) (ρ pulseM O P Pd H : CMat d)
    (t1_step : ℚ) (npoints : ℕ) (h : t2star ≠ 0) :
    ∀ (rem i : ℕ), ∃ g,
      fid2dAux Δt t2star ρ pulseM O P Pd H t1_step npoints rem i = Except.ok g ∧
        g.length = rem ∧ ∀ r ∈ g, r.length = npoints := by
  intro rem
  induction rem with
  | zero => exact fun i => ⟨[], rfl, rfl, fun r hr => absurd hr (List.not_mem_nil r)⟩
  | succ rem ih =>
    intro i
    obtain ⟨g, hg, hglen, hrows⟩ := ih (i + 1)
    obtain ⟨row, hrow, hrowlen⟩ := fidAux_ok Δt t2star O P Pd h npoints 0
      (pulseM * (fid2d_t1_evo H t1_step i * ρ * (fid2d_t1_evo H t1_step i)ᴴ) * pulseMᴴ)
    refine ⟨row :: g, ?_, by simpa using hglen, ?_⟩
    · rw [fid2dAux, hrow, hg]; rfl
    · intro r hr
      rcases List.mem_cons.mp hr with rfl | hr
      · exact hrowlen
      · exact hrows r hr

end simulation

/-- Claim C3 (amended): the trajectory generators perform no configuration
validation.  For every decay constant `t2star ≠ 0` — including negative
values — every time step (of any sign) and every `npoints`/`Np1` ≥ 0
(including `0`), `simulation.fid` and `simulation.fid2d` compute and return
an array silently; only `t2star = 0` (with a nonempty loop) aborts, with an
accidental `ZeroDivisionError` from the decay division rather than a
configuration error, and `parameters.__post_init__` accepts a negative
sampling rate, silently producing a negative time step. -/
theorem fid_fid2d_no_validation (n : ℕ) (γ : Fin n → ℚ) (B1 B2 : ℚ)
    (J : Fin n → Fin n → ℚ) (Bx By Bz duration : ℚ) (Np1 npoints : ℕ)
    (time_step t1_step t2star sampling_rate : ℚ) :
    (t2star ≠ 0 →
      (∃ l, simulation.fid n γ B1 J Bx By Bz duration npoints time_step t2star =
          Except.ok l ∧ l.length = npoints) ∧
      (∃ g, simulation.fid2d n γ B1 B2 J Bx By Bz duration Np1 npoints
          time_step t1_step t2star = Except.ok g ∧ g.length = Np1 ∧
          ∀ r ∈ g, r.length = npoints)) ∧
    (t2star = 0 → 1 ≤ npoints →
      simulation.fid n γ B1 J Bx By Bz duration npoints time_step t2star =
        Except.error "ZeroDivisionError: float division by zero") ∧
    (sampling_rate < 0 →
      ∃ dt, parameters.time_step_of sampling_rate = Except.ok dt ∧ dt < 0) := by
  refine ⟨fun h => ⟨?_, ?_⟩, fun h hn => ?_, fun h => ?_⟩
  · exact simulation.fidAux_ok _ _ _ _ _ h npoints 0 _
  · exact simulation.fid2dAux_ok _ _ _ _ _ _ _ _ _ _ h Np1 0
  · obtain ⟨m, rfl⟩ : ∃ m, npoints = m + 1 :=
      ⟨npoints - 1, (Nat.succ_pred_eq_of_pos hn).symm⟩
    rw [simulation.fid, simulation.fidAux, if_pos h]
  · exact ⟨1 / sampling_rate, by rw [parameters.time_step_of, if_neg h.ne],
      one_div_neg.mpr h⟩

/-- Witness for C3: a one-proton system with negative `t2star` silently
yields three samples; `t2star = 0` hits the division error; a negative
sampling rate yields a negative time step. -/
theorem fid_fid2d_no_validation_witness :
    ((∃ l, simulation.fid 1 (fun _ => Gamma_Dict.G_1H) 0 (fun _ _ => 0) 0 0 0 10
        3 (1/1000) (-1) = Except.ok l ∧ l.length = 3) ∧
      (∃ g, simulation.fid2d 1 (fun _ => Gamma_Dict.G_1H) 0 0 (fun _ _ => 0) 0 0 0 10
          2 3 (1/1000) (17/10000) (-1) = Except.ok g ∧ g.length = 2 ∧
          ∀ r ∈ g, r.length = 3)) ∧
      simulation.fid 1 (fun _ => Gamma_Dict.G_1H) 0 (fun _ _ => 0) 0 0 0 10
          3 (1/1000) 0 = Except.error "ZeroDivisionError: float division by zero" ∧
      ∃ dt, parameters.time_step_of (-5) = Except.ok dt ∧ dt < 0 :=
  ⟨(fid_fid2d_no_validation 1 (fun _ => Gamma_Dict.G_1H) 0 0 (fun _ _ => 0) 0 0 0 10
      2 3 (1/1000) (17/10000) (-1) (-5)).1 (by norm_num),
   ⟨(fid_fid2d_no_validation 1 (fun _ => Gamma_Dict.G_1H) 0 0 (fun _ _ => 0) 0 0 0 10
      2 3 (1/1000) (17/10000) 0 (-5)).2.1 rfl (by norm_num),
    (fid_fid2d_no_validation 1 (fun _ => Gamma_Dict.G_1H) 0 0 (fun _ _ => 0) 0 0 0 10
      2 3 (1/1000) (17/10000) 0 (-5)).2.2 (by norm_num)⟩⟩

/-- Counterexample to C3 as stated: with the non-positive decay constant
`t2star = -1`, `simulation.fid` does not raise any configuration error — it
silently computes and returns a two-sample FID array. -/
theorem fid_negative_t2star_computes_silently :
    ∃ l, simulation.fid 1 (fun _ => Gamma_Dict.G_1H) 0 (fun _ _ => 0) 0 0 0 10
        2 (1/1000) (-1) = Except.ok l ∧ l.length = 2 := by
  have h : (-1 : ℚ) ≠ 0 := by norm_num
  rw [simulation.fid, simulation.fidAux, if_neg h, simulation.fidAux, if_neg h,
    simulation.fidAux]
  exact ⟨_, rfl, rfl⟩

/-- Claim C4: The first recorded sample of `simulation.fid` (index `0`, elapsed
time `0`, decay `exp 0 = 1`) equals exactly `Tr(ρ·O)` for the pulse-prepared
density matrix `ρ` and detection observable `O`, before the propagator acts. -/
theorem fid_first_sample (n : ℕ) (γ : Fin n → ℚ) (B : ℚ) (J : Fin n → Fin n → ℚ)
    (Bx By Bz duration : ℚ) (npoints : ℕ) (time_step t2star : ℚ)
    (h : t2star ≠ 0) (hn : 1 ≤ npoints) :
    ∃ l, simulation.fid n γ B J Bx By Bz duration npoints time_step t2star =
        Except.ok l ∧
      l.head? = some (Matrix.trace
        (operation.rho_pulse n γ (calculation.H_total n γ B J) Bx By Bz duration *
          operation.operator n γ)) := by
  obtain ⟨m, rfl⟩ : ∃ m, npoints = m + 1 :=
    ⟨npoints - 1, (Nat.succ_pred_eq_of_pos hn).symm⟩
  obtain ⟨l, hl, -⟩ := simulation.fidAux_ok time_step t2star
    (operation.operator n γ) (calculation.propagate n γ B J time_step)
    (calculation.pro_dagger (calculation.propagate n γ B J time_step)) h m 1
    (calculation.propagate n γ B J time_step *
      operation.rho_pulse n γ (calculation.H_total n γ B J) Bx By Bz duration *
      calculation.pro_dagger (calculation.propagate n γ B J time_step))
  rw [simulation.fid, simulation.fidAux, if_neg h, hl]
  refine ⟨_, rfl, ?_⟩
  simp [Real.exp_zero]

/-- Witness for C4: the one-proton system at `npoints = 3`, `t2star = 1`. -/
theorem fid_first_sample_witness :
    ∃ l, simulation.fid 1 (fun _ => Gamma_Dict.G_1H) 0 (fun _ _ => 0) 0 0 0 10
        3 (1/1000) 1 = Except.ok l ∧
      l.head? = some (Matrix.trace
        (operation.rho_pulse 1 (fun _ => Gamma_Dict.G_1H)
            (calculation.H_total 1 (fun _ => Gamma_Dict.G_1H) 0 fun _ _ => 0)
            0 0 0 10 *
          operation.operator 1 fun _ => Gamma_Dict.G_1H)) :=
  fid_first_sample 1 (fun _ => Gamma_Dict.G_1H) 0 (fun _ _ => 0) 0 0 0 10 3
    (1/1000) 1 (by norm_num) (by norm_num)

/-- Claim C5: The cumulative operator that `simulation.fid2d` reaches at
increment `k` by `k` multiplications with the single precomputed
`expm(t1_evo_1)` equals the matrix `expm(t1_evo_1 * k)` that
`simulation.freq_domain2d` recomputes at increment `k`, so both variants
evolve any density matrix identically at every increment. -/
theorem fid2d_cumulative_eq_freq_domain2d {d : ℕ} (H : CMat d) (t1_step : ℚ)
    (k : ℕ) (ρ : CMat d) :
    simulation.fid2d_t1_evo H t1_step k = simulation.freq_domain2d_t1_evo H t1_step k ∧
      simulation.fid2d_t1_evo H t1_step k * ρ * (simulation.fid2d_t1_evo H t1_step k)ᴴ =
        simulation.freq_domain2d_t1_evo H t1_step k * ρ *
          (simulation.freq_domain2d_t1_evo H t1_step k)ᴴ := by
  have hpow : simulation.fid2d_t1_evo H t1_step k =
      NormedSpace.exp ℂ (simulation.t1_evo_1 H t1_step) ^ k := by
    induction k with
    | zero => rfl
    | succ k ih => rw [simulation.fid2d_t1_evo, ih, pow_succ']
  have h1 : simulation.fid2d_t1_evo H t1_step k =
      simulation.freq_domain2d_t1_evo H t1_step k := by
    rw [hpow, simulation.freq_domain2d_t1_evo,
      Nat.cast_smul_eq_nsmul ℂ k (simulation.t1_evo_1 H t1_step),
      Matrix.exp_nsmul ℂ]
  exact ⟨h1, by rw [h1]⟩

namespace simulation

theorem yieldLoopGo_mem {α β : Type*} (g : α → Prop) [DecidablePred g]
    (e : α → β) (maxc : ℕ) :
    ∀ (items : List α) (c : ℕ) (b : β), b ∈ yieldLoopGo g e maxc items c →
      ∃ a ∈ items, g a ∧ b = e a := by
  intro items
  induction items with
  | nil => intro c b hb; exact absurd hb (List.not_mem_nil b)
  | cons x rest ih =>
    intro c b hb
    rw [yieldLoopGo] at hb
    by_cases hg : g x
    · rw [if_pos hg] at hb
      rcases List.mem_cons.mp hb with rfl | hb'
      · exact ⟨x, List.mem_cons_self x rest, hg, rfl⟩
      · by_cases hstop : maxc ≤ c + 1
        · rw [if_pos hstop] at hb'
          exact absurd hb' (List.not_mem_nil b)
        · rw [if_neg hstop] at hb'
          obtain ⟨a, ha, hga, hba⟩ := ih (c + 1) b hb'
          exact ⟨a, List.mem_cons_of_mem x ha, hga, hba⟩
    · rw [if_neg hg] at hb
      obtain ⟨a, ha, hga, hba⟩ := ih c b hb
      exact ⟨a, List.mem_cons_of_mem x ha, hga, hba⟩

theorem yieldLoopGo_length {α β : Type*} (g : α → Prop) [DecidablePred g]
    (e : α → β) (maxc : ℕ) :
    ∀ (items : List α) (c : ℕ),
      (yieldLoopGo g e maxc items c).length ≤ max (maxc - c) 1 := by
  intro items
  induction items with
  | nil => intro c; simp [yieldLoopGo]
  | cons x rest ih =>
    intro c
    rw [yieldLoopGo]
    by_cases hg : g x
    · rw [if_pos hg]
      by_cases hstop : maxc ≤ c + 1
      · rw [if_pos hstop]
        simp
      · rw [if_neg hstop]
        have h2 := ih (c + 1)
        simp only [List.length_cons]
        omega
    · rw [if_neg hg]
      exact ih c

theorem yieldLoop_length {α β : Type*} (g : α → Prop) [DecidablePred g]
    (e : α → β) (maxc : ℕ) (items : List α) (h : 1 ≤ maxc) :
    (yieldLoop g e maxc items).length ≤ maxc := by
  have := yieldLoopGo_length g e maxc items 0
  rw [yieldLoop]
  omega

end simulation

/-- Claim C2 (amended): the two 2D generators do enforce their cutoffs — every
yielded tuple has weight magnitude strictly above `min_weight` and, whenever
`tol_hz > 0`, both frequencies strictly above `tol_hz`, and for
`max_count ≥ 1` at most `max_count` tuples are yielded.  (The 1D
`freq_domain` applies no filtering at all; see the counterexample.) -/
theorem freq_domain_2d_generators_filtered (d : ℕ) (E : Fin d → ℝ)
    (V pulseM coilM rho0M H : CMat d) (t1_step : ℚ) (tol_hz min_weight : ℝ)
    (max_count : ℕ) (hc : 1 ≤ max_count) :
    (∀ t ∈ simulation.freq_domain_2d d E V pulseM coilM rho0M tol_hz min_weight
        max_count,
      min_weight < Complex.abs t.2.2 ∧ (0 < tol_hz → tol_hz < t.1 ∧ tol_hz < t.2.1)) ∧
    (simulation.freq_domain_2d d E V pulseM coilM rho0M tol_hz min_weight
        max_count).length ≤ max_count ∧
    (∀ t ∈ simulation.freq_domain_2d_MQ d E V pulseM coilM rho0M H t1_step
        tol_hz min_weight max_count,
      min_weight < Complex.abs t.2.2 ∧ (0 < tol_hz → tol_hz < t.1 ∧ tol_hz < t.2.1)) ∧
    (simulation.freq_domain_2d_MQ d E V pulseM coilM rho0M H t1_step tol_hz
        min_weight max_count).length ≤ max_count := by
  refine ⟨?_, ?_, ?_, ?_⟩
  · intro t ht
    obtain ⟨q, -, hg, rfl⟩ := simulation.yieldLoopGo_mem _ _ _ _ _ _ ht
    obtain ⟨-, h2, -, h4, h5⟩ := hg
    refine ⟨h5, fun htol => ⟨?_, ?_⟩⟩
    · exact lt_of_not_le fun hle => h4 ⟨htol, hle⟩
    · exact lt_of_not_le fun hle => h2 ⟨htol, hle⟩
  · exact simulation.yieldLoop_length _ _ _ _ hc
  · intro t ht
    obtain ⟨q, -, hg, rfl⟩ := simulation.yieldLoopGo_mem _ _ _ _ _ _ ht
    obtain ⟨-, h2, -, -, h5, h6⟩ := hg
    refine ⟨h6, fun htol => ⟨?_, ?_⟩⟩
    · exact lt_of_not_le fun hle => h2 ⟨htol, hle⟩
    · exact lt_of_not_le fun hle => h5 ⟨htol, hle⟩
  · exact simulation.yieldLoop_length _ _ _ _ hc

/-- Witness for C2 (amended), at the trivial one-dimensional system. -/
theorem freq_domain_2d_generators_filtered_witness :
    (∀ t ∈ simulation.freq_domain_2d 1 (fun _ => 0) 0 0 0 0 1 1 3,
      (1 : ℝ) < Complex.abs t.2.2 ∧ ((0 : ℝ) < 1 → (1 : ℝ) < t.1 ∧ (1 : ℝ) < t.2.1)) ∧
    (simulation.freq_domain_2d 1 (fun _ => 0) 0 0 0 0 1 1 3).length ≤ 3 ∧
    (∀ t ∈ simulation.freq_domain_2d_MQ 1 (fun _ => 0) 0 0 0 0 0 (17/10000) 1 1 3,
      (1 : ℝ) < Complex.abs t.2.2 ∧ ((0 : ℝ) < 1 → (1 : ℝ) < t.1 ∧ (1 : ℝ) < t.2.1)) ∧
    (simulation.freq_domain_2d_MQ 1 (fun _ => 0) 0 0 0 0 0 (17/10000) 1 1 3).length ≤ 3 :=
  freq_domain_2d_generators_filtered 1 (fun _ => 0) 0 0 0 0 0 (17/10000) 1 1 3
    (by decide)

theorem H_total_zero_field_zero_coupling (n : ℕ) (γ : Fin n → ℚ) :
    calculation.H_total n γ 0 (fun _ _ => 0) = 0 := by
  unfold calculation.H_total calculation.H_zemmen calculation.H_coupling
  simp

/-- Counterexample to C2 as stated: for the valid two-proton system with zero
field and zero coupling the Hamiltonian is `0`, `(E, V) = (0, I)` is a
legitimate `eigh` output for it, and the 1D generator `freq_domain` —
whose filtering code is commented out and which has no tolerance, weight or
count parameters at all — emits tuples with frequency `0`, exceeding no
(nonnegative) frequency tolerance. -/
theorem freq_domain_unfiltered_counterexample :
    eighSpec (2 ^ 2)
      (calculation.H_total 2 (gammaFun [Gamma_Dict.G_1H, Gamma_Dict.G_1H] 2) 0
        fun _ _ => 0) (fun _ => 0) 1 ∧
    ¬ (∀ f ∈ (simulation.freq_domain (2 ^ 2) (fun _ => 0) 1
        (operation.rho_pulse 2 (gammaFun [Gamma_Dict.G_1H, Gamma_Dict.G_1H] 2)
          (calculation.H_total 2 (gammaFun [Gamma_Dict.G_1H, Gamma_Dict.G_1H] 2) 0
            fun _ _ => 0) 0 0 0 10)
        (operation.operator 2 (gammaFun [Gamma_Dict.G_1H, Gamma_Dict.G_1H] 2))).1,
      0 < f) := by
  constructor
  · refine ⟨by simp, ?_, monotone_const⟩
    rw [H_total_zero_field_zero_coupling]
    simp
  · intro hall
    have h01 : ((0 : Fin (2 ^ 2)), (1 : Fin (2 ^ 2))) ∈ simulation.upperPairs (2 ^ 2) := by
      decide
    have hmem : (0 : ℝ) ∈ (simulation.freq_domain (2 ^ 2) (fun _ => 0) 1
        (operation.rho_pulse 2 (gammaFun [Gamma_Dict.G_1H, Gamma_Dict.G_1H] 2)
          (calculation.H_total 2 (gammaFun [Gamma_Dict.G_1H, Gamma_Dict.G_1H] 2) 0
            fun _ _ => 0) 0 0 0 10)
        (operation.operator 2 (gammaFun [Gamma_Dict.G_1H, Gamma_Dict.G_1H] 2))).1 := by
      refine List.mem_map.mpr ⟨((0 : Fin (2 ^ 2)), (1 : Fin (2 ^ 2))), h01, by simp⟩
    exact lt_irrefl 0 (hall 0 hmem)

theorem fftshiftList_length {α : Type*} (x : List α) :
    (SignalProcessor.fftshiftList x).length = x.length := by
  simp [SignalProcessor.fftshiftList]
  omega

theorem fftshiftList_append_of_length_eq {α : Type*} (A B : List α)
    (h : A.length = B.length) :
    SignalProcessor.fftshiftList (A ++ B) = B ++ A := by
  rw [SignalProcessor.fftshiftList]
  have hhalf : ((A ++ B).length + 1) / 2 = A.length := by
    rw [List.length_append, h]; omega
  rw [hhalf, List.drop_left, List.take_left]

theorem freq_even_core (M : ℕ) (dt : ℚ) (hdt : dt ≠ 0) :
    SignalProcessor.fftshiftList (SignalProcessor.npfftfreq (M + M) dt) =
      SignalProcessor.specFreqAxis (M + M) dt 0 := by
  rcases Nat.eq_zero_or_pos M with rfl | hM
  · simp [SignalProcessor.npfftfreq, SignalProcessor.specFreqAxis,
      SignalProcessor.fftshiftList]
  · have hcastne : ((M + M : ℕ) : ℚ) ≠ 0 := by positivity
    rw [SignalProcessor.npfftfreq, SignalProcessor.specFreqAxis, List.range_add,
      List.map_append, List.map_append, List.map_map, List.map_map,
      fftshiftList_append_of_length_eq _ _ (by simp)]
    congr 1
    · refine List.map_congr_left fun i hi => ?_
      have hi' : i < M := List.mem_range.mp hi
      have hcond : ¬ (M + i ≤ (M + M - 1) / 2) := by omega
      simp only [Function.comp_apply, if_neg hcond]
      rw [div_add_div _ _ (by positivity : (2 : ℚ) ≠ 0) (by exact hcastne), add_zero]
      push_cast
      field_simp
      ring
    · refine List.map_congr_left fun i hi => ?_
      have hi' : i < M := List.mem_range.mp hi
      have hcond : i ≤ (M + M - 1) / 2 := by omega
      simp only [Function.comp_apply, if_pos hcond]
      push_cast
      field_simp
      ring

/-- Claim C8 (amended): `SignalProcessor.fft` with zero-fill length `N ≥ 1`
returns a spectrum of exactly `N` samples, and for an even-length spectrum
`SignalProcessor.freq` returns `linspace(−sweep/2, sweep/2 − sweep/N, N)`
with `sweep = 1/dt` — but WITHOUT the acquisition-offset shift (the offset is
never added; odd lengths give the same grid shifted up by `sweep/(2N)`). -/
theorem fft_length_and_freq_axis (fid : List ℂ) (n : ℕ) (hn : 1 ≤ n)
    (spectrum : List ℂ) (dt : ℚ) (hdt : dt ≠ 0) (heven : Even spectrum.length) :
    (∃ l, SignalProcessor.fft fid (some n) = Except.ok l ∧ l.length = n) ∧
      SignalProcessor.freq spectrum dt =
        SignalProcessor.specFreqAxis spectrum.length dt 0 := by
  constructor
  · refine ⟨(SignalProcessor.fftshiftList (SignalProcessor.npfft fid n)).map
      fun z => z / (n : ℂ), ?_, ?_⟩
    · simp only [SignalProcessor.fft, Option.getD_some]
      rw [if_neg (by omega : ¬ n = 0)]
    · rw [List.length_map, fftshiftList_length]
      simp [SignalProcessor.npfft]
  · obtain ⟨M, hM⟩ := heven
    rw [SignalProcessor.freq, hM, freq_even_core M dt hdt]

/-- Witness for C8: zero-fill 4 on a one-sample FID, and the axis of a
two-sample spectrum at `dt = 1`. -/
theorem fft_length_and_freq_axis_witness :
    (∃ l, SignalProcessor.fft [1] (some 4) = Except.ok l ∧ l.length = 4) ∧
      SignalProcessor.freq [0, 0] 1 = SignalProcessor.specFreqAxis 2 1 0 :=
  fft_length_and_freq_axis [1] 4 (by decide) [0, 0] 1 (by decide) (by decide)

/-- Counterexample to C8 as stated: `SignalProcessor.freq` never adds the
acquisition offset — for a two-sample spectrum at `dt = 1` and offset `5` it
returns `[-1/2, 0]`, not the claimed `linspace + offset = [9/2, 5]`. -/
theorem freq_ignores_offset_counterexample :
    SignalProcessor.freq [0, 0] 1 ≠ SignalProcessor.specFreqAxis 2 1 5 := by
  simp only [SignalProcessor.freq, SignalProcessor.npfftfreq,
    SignalProcessor.fftshiftList, SignalProcessor.specFreqAxis]
  norm_num [List.range_succ]

theorem apodisation_window_length (n : ℕ) (decay : ℝ) :
    (SignalProcessor.apodisation_window n decay).length = n := by
  simp [SignalProcessor.apodisation_window, SignalProcessor.linspace01]

theorem apodisation_window_head (n : ℕ) (decay : ℝ) (hn : 0 < n) :
    (SignalProcessor.apodisation_window n decay).getD 0 0 = 1 := by
  rw [List.getD_eq_getElem _ _ (by rw [apodisation_window_length]; exact hn)]
  simp [SignalProcessor.apodisation_window, SignalProcessor.linspace01]

theorem apodisation_spec (fid : List ℂ) (decay : ℝ) (hne : fid ≠ []) :
    ∃ l, SignalProcessor.apodisation fid decay = Except.ok l ∧
      l.length = fid.length ∧ l.getD 0 0 = fid.getD 0 0 * (0.5 : ℂ) ∧
      ∀ k, k ≠ 0 → l.getD k 0 = fid.getD k 0 *
        (((SignalProcessor.apodisation_window fid.length decay).getD k 0 : ℝ) : ℂ) := by
  have hfpos : 0 < fid.length := List.length_pos.mpr hne
  have hwlen : (SignalProcessor.apodisation_window fid.length decay).length =
      fid.length := apodisation_window_length _ _
  have hzlen : (List.zipWith (fun x (w : ℝ) => x * (w : ℂ)) fid
      (SignalProcessor.apodisation_window fid.length decay)).length = fid.length := by
    rw [List.length_zipWith, hwlen, min_self]
  have hzget : ∀ k, k < fid.length →
      (List.zipWith (fun x (w : ℝ) => x * (w : ℂ)) fid
        (SignalProcessor.apodisation_window fid.length decay)).getD k 0 =
      fid.getD k 0 *
        (((SignalProcessor.apodisation_window fid.length decay).getD k 0 : ℝ) : ℂ) := by
    intro k hk
    rw [List.getD_eq_getElem _ _ (by rw [hzlen]; exact hk), List.getElem_zipWith,
      List.getD_eq_getElem _ _ hk, List.getD_eq_getElem _ _ (by rw [hwlen]; exact hk)]
  have hzne : List.zipWith (fun x (w : ℝ) => x * (w : ℂ)) fid
      (SignalProcessor.apodisation_window fid.length decay) ≠ [] := by
    intro h
    rw [h] at hzlen
    exact hne (List.length_eq_zero.mp hzlen.symm)
  obtain ⟨y, ys, hz⟩ := List.exists_cons_of_ne_nil hzne
  have hllen : (y :: ys).length = fid.length := by rw [← hz, hzlen]
  refine ⟨y * (0.5 : ℂ) :: ys, ?_, by simpa using hllen, ?_, ?_⟩
  · unfold SignalProcessor.apodisation
    rw [hz]
  · have h1 := hzget 0 hfpos
    rw [hz, List.getD_cons_zero] at h1
    rw [List.getD_cons_zero, h1, apodisation_window_head _ _ hfpos]
    norm_num
  · intro k hk
    obtain ⟨k', rfl⟩ : ∃ k', k = k' + 1 :=
      ⟨k - 1, (Nat.succ_pred_eq_of_pos (Nat.pos_of_ne_zero hk)).symm⟩
    rcases Nat.lt_or_ge (k' + 1) fid.length with hlt | hge
    · have h1 := hzget (k' + 1) hlt
      rw [hz, List.getD_cons_succ] at h1
      rw [List.getD_cons_succ]
      exact h1
    · rw [List.getD_eq_default _ _ (by simp only [List.length_cons] at hllen ⊢; omega),
        List.getD_eq_default _ _ hge, List.getD_eq_default _ _ (by rw [hwlen]; exact hge)]
      rw [zero_mul]

theorem apodisation2d_spec (fid2d : List (List ℂ)) (decay1 decay2 : ℝ)
    (hne1 : fid2d ≠ []) (hne2 : fid2d.headD [] ≠ [])
    (hrect : ∀ row ∈ fid2d, row.length = (fid2d.headD []).length) :
    ∃ g, SignalProcessor.apodisation2d fid2d decay1 decay2 = Except.ok g ∧
      g.length = fid2d.length ∧
      (∀ i, (g.getD i []).length = (fid2d.getD i []).length) ∧
      (g.getD 0 []).getD 0 0 = (fid2d.getD 0 []).getD 0 0 * (0.5 : ℂ) := by
  have hn1 : 0 < fid2d.length := List.length_pos.mpr hne1
  have hn2 : 0 < (fid2d.headD []).length := List.length_pos.mpr hne2
  have hhead0 : fid2d.getD 0 [] = fid2d.headD [] := by
    cases fid2d with
    | nil => exact absurd rfl hne1
    | cons a t => rfl
  have hw1len : (SignalProcessor.apodisation_window fid2d.length decay1).length =
      fid2d.length := apodisation_window_length _ _
  have hw2len : (SignalProcessor.apodisation_window (fid2d.headD []).length
      decay2).length = (fid2d.headD []).length := apodisation_window_length _ _
  have hZlen : (List.zipWith
      (fun (wi : ℝ) row => List.zipWith (fun x (wj : ℝ) => x * ((wi * wj : ℝ) : ℂ))
        row (SignalProcessor.apodisation_window (fid2d.headD []).length decay2))
      (SignalProcessor.apodisation_window fid2d.length decay1) fid2d).length =
      fid2d.length := by
    rw [List.length_zipWith, hw1len, min_self]
  have hZget : ∀ i, i < fid2d.length →
      (List.zipWith
        (fun (wi : ℝ) row => List.zipWith (fun x (wj : ℝ) => x * ((wi * wj : ℝ) : ℂ))
          row (SignalProcessor.apodisation_window (fid2d.headD []).length decay2))
        (SignalProcessor.apodisation_window fid2d.length decay1) fid2d).getD i [] =
      List.zipWith (fun x (wj : ℝ) => x *
          (((SignalProcessor.apodisation_window fid2d.length decay1).getD i 0 * wj : ℝ) : ℂ))
        (fid2d.getD i [])
        (SignalProcessor.apodisation_window (fid2d.headD []).length decay2) := by
    intro i hi
    rw [List.getD_eq_getElem _ _ (by rw [hZlen]; exact hi), List.getElem_zipWith,
      List.getD_eq_getElem _ _ (by rw [hw1len]; exact hi),
      List.getD_eq_getElem _ _ hi]
  have hrowlen : ∀ i, i < fid2d.length →
      ((List.zipWith
        (fun (wi : ℝ) row => List.zipWith (fun x (wj : ℝ) => x * ((wi * wj : ℝ) : ℂ))
          row (SignalProcessor.apodisation_window (fid2d.headD []).length decay2))
        (SignalProcessor.apodisation_window fid2d.length decay1) fid2d).getD i []).length =
      (fid2d.getD i []).length := by
    intro i hi
    rw [hZget i hi, List.length_zipWith, hw2len,
      hrect (fid2d.getD i []) (by rw [List.getD_eq_getElem _ _ hi]; exact List.getElem_mem hi),
      min_self]
  have hZne : List.zipWith
      (fun (wi : ℝ) row => List.zipWith (fun x (wj : ℝ) => x * ((wi * wj : ℝ) : ℂ))
        row (SignalProcessor.apodisation_window (fid2d.headD []).length decay2))
      (SignalProcessor.apodisation_window fid2d.length decay1) fid2d ≠ [] := by
    intro h
    rw [h] at hZlen
    exact hne1 (List.length_eq_zero.mp hZlen.symm)
  obtain ⟨r0, rs, hz⟩ := List.exists_cons_of_ne_nil hZne
  have hr0len : r0.length = (fid2d.getD 0 []).length := by
    have := hrowlen 0 hn1
    rw [hz, List.getD_cons_zero] at this
    exact this
  have hr0ne : r0 ≠ [] := by
    intro h
    rw [h] at hr0len
    rw [hhead0] at hr0len
    exact hne2 (List.length_eq_zero.mp hr0len.symm)
  obtain ⟨c0, ct, hc⟩ := List.exists_cons_of_ne_nil hr0ne
  subst hc
  have hglen : ((c0 :: ct) :: rs).length = fid2d.length := by rw [← hz, hZlen]
  refine ⟨(c0 * (0.5 : ℂ) :: ct) :: rs, ?_, by simpa using hglen, ?_, ?_⟩
  · unfold SignalProcessor.apodisation2d
    rw [hz]
  · intro i
    rcases Nat.lt_or_ge i fid2d.length with hi | hi
    · rcases i with - | k
      · have h0 := hrowlen 0 hn1
        rw [hz, List.getD_cons_zero] at h0
        simpa using h0
      · have hk := hrowlen (k + 1) hi
        rw [hz, List.getD_cons_succ] at hk
        rw [List.getD_cons_succ]
        exact hk
    · rw [List.getD_eq_default _ _ (by simp only [List.length_cons] at hglen ⊢; omega),
        List.getD_eq_default _ _ hi]
  · have h1 := hZget 0 hn1
    rw [hz, List.getD_cons_zero] at h1
    have h2 := congrArg (fun l => l.getD 0 (0 : ℂ)) h1
    simp only [List.getD_cons_zero] at h2
    have hb1 : (0 : ℕ) < (fid2d.getD 0 []).length := by rw [hhead0]; exact hn2
    have hb2 : (0 : ℕ) <
        (SignalProcessor.apodisation_window (fid2d.headD []).length decay2).length := by
      rw [hw2len]; exact hn2
    have hb0 : (0 : ℕ) < (List.zipWith (fun x (wj : ℝ) => x *
        (((SignalProcessor.apodisation_window fid2d.length decay1).getD 0 0 * wj : ℝ) : ℂ))
        (fid2d.getD 0 [])
        (SignalProcessor.apodisation_window (fid2d.headD []).length decay2)).length := by
      rw [List.length_zipWith]; exact lt_min hb1 hb2
    have h3 : (List.zipWith (fun x (wj : ℝ) => x *
        (((SignalProcessor.apodisation_window fid2d.length decay1).getD 0 0 * wj : ℝ) : ℂ))
        (fid2d.getD 0 [])
        (SignalProcessor.apodisation_window (fid2d.headD []).length decay2)).getD 0 0 =
        (fid2d.getD 0 []).getD 0 0 *
        ((((SignalProcessor.apodisation_window fid2d.length decay1).getD 0 0 *
          (SignalProcessor.apodisation_window (fid2d.headD []).length decay2).getD 0 0 : ℝ)) : ℂ) := by
      rw [List.getD_eq_getElem _ _ hb0, List.getElem_zipWith,
        List.getD_eq_getElem _ _ hb1, List.getD_eq_getElem _ _ hb2]
    have hc0 : c0 = (fid2d.getD 0 []).getD 0 0 *
        ((((SignalProcessor.apodisation_window fid2d.length decay1).getD 0 0 *
          (SignalProcessor.apodisation_window (fid2d.headD []).length decay2).getD 0 0 : ℝ)) : ℂ) :=
      h2.trans h3
    rw [List.getD_cons_zero, List.getD_cons_zero, hc0,
      apodisation_window_head _ _ hn1, apodisation_window_head _ _ hn2]
    norm_num

/-- Claim C9 (amended): for every NONEMPTY input FID, `apodisation` preserves
the length, makes the first output sample exactly half the first input sample
(the window value at index 0 is `exp 0 = 1`), and multiplies every other
sample by the decay window only; for a nonempty rectangular 2D input,
`apodisation2d` preserves the shape and halves exactly the `[0, 0]` sample.
(An empty input makes the in-place halving raise `IndexError`; see the
counterexample.) -/
theorem apodisation_halves_first_sample (fid : List ℂ) (decay : ℝ)
    (hne : fid ≠ []) (fid2d : List (List ℂ)) (decay1 decay2 : ℝ)
    (hne1 : fid2d ≠ []) (hne2 : fid2d.headD [] ≠ [])
    (hrect : ∀ row ∈ fid2d, row.length = (fid2d.headD []).length) :
    (∃ l, SignalProcessor.apodisation fid decay = Except.ok l ∧
      l.length = fid.length ∧ l.getD 0 0 = fid.getD 0 0 * (0.5 : ℂ) ∧
      ∀ k, k ≠ 0 → l.getD k 0 = fid.getD k 0 *
        (((SignalProcessor.apodisation_window fid.length decay).getD k 0 : ℝ) : ℂ)) ∧
    (∃ g, SignalProcessor.apodisation2d fid2d decay1 decay2 = Except.ok g ∧
      g.length = fid2d.length ∧
      (∀ i, (g.getD i []).length = (fid2d.getD i []).length) ∧
      (g.getD 0 []).getD 0 0 = (fid2d.getD 0 []).getD 0 0 * (0.5 : ℂ)) :=
  ⟨apodisation_spec fid decay hne,
   apodisation2d_spec fid2d decay1 decay2 hne1 hne2 hrect⟩

/-- Witness for C9 (amended): a two-sample FID and a 2 × 2 array. -/
theorem apodisation_halves_first_sample_witness :
    (∃ l, SignalProcessor.apodisation [6, 8] 0.1 = Except.ok l ∧
      l.length = ([6, 8] : List ℂ).length ∧
      l.getD 0 0 = ([6, 8] : List ℂ).getD 0 0 * (0.5 : ℂ) ∧
      ∀ k, k ≠ 0 → l.getD k 0 = ([6, 8] : List ℂ).getD k 0 *
        (((SignalProcessor.apodisation_window ([6, 8] : List ℂ).length 0.1).getD k 0 : ℝ) : ℂ)) ∧
    (∃ g, SignalProcessor.apodisation2d [[1, 2], [3, 4]] 0.1 0.2 = Except.ok g ∧
      g.length = ([[1, 2], [3, 4]] : List (List ℂ)).length ∧
      (∀ i, (g.getD i []).length =
        (([[1, 2], [3, 4]] : List (List ℂ)).getD i []).length) ∧
      (g.getD 0 []).getD 0 0 =
        (([[1, 2], [3, 4]] : List (List ℂ)).getD 0 []).getD 0 0 * (0.5 : ℂ)) :=
  apodisation_halves_first_sample [6, 8] 0.1 (by simp) [[1, 2], [3, 4]] 0.1 0.2
    (by simp) (by simp) (by simp)

/-- Counterexample to C9 as stated: on the empty FID array, `apodisation`
does not return an array of the same length — the in-place halving
`fid_win[0] *= 0.5` raises `IndexError`. -/
theorem apodisation_empty_raises :
    ¬ ∃ l, SignalProcessor.apodisation [] 0.1 = Except.ok l := by
  rintro ⟨l, hl⟩
  simp only [SignalProcessor.apodisation] at hl
  exact Except.noConfusion hl
